import Mathlib

/-!
Shallow embedding of `src/chunk_type.rs` from the `rust-pngme` repository,
together with theorems settling the specification's claims about it.

Bytes (`u8`) are embedded as `Nat`; no arithmetic in this module can
overflow a `u8`, so no wrap-around modelling is needed.  Fallible Rust
functions (`TryFrom`, `FromStr`) are embedded as functions into explicit
result types; the possibility that `from_str` panics (the slice expression
`&s.as_bytes()[..4]` on a string shorter than 4 bytes) is made explicit by
a dedicated `panicked` outcome.
-/

namespace PngMe

/-- Embedding of Rust `u8::is_ascii_uppercase`: the byte is in the range
`b'A'..=b'Z'`, i.e. `65..=90`. -/
def isAsciiUppercase (b : Nat) : Bool :=
  65 ≤ b && b ≤ 90

/-- Embedding of Rust `u8::is_ascii_lowercase`: the byte is in the range
`b'a'..=b'z'`, i.e. `97..=122`. -/
def isAsciiLowercase (b : Nat) : Bool :=
  97 ≤ b && b ≤ 122

/-- Embedding of Rust `u8::is_ascii_alphabetic`: uppercase or lowercase
ASCII letter. -/
def isAsciiAlphabetic (b : Nat) : Bool :=
  isAsciiUppercase b || isAsciiLowercase b

/-- Embedding of Rust `char::is_ascii_alphabetic`, applied to a Unicode
scalar value: true exactly when the code point is an ASCII letter. -/
def charIsAsciiAlphabetic (c : Char) : Bool :=
  isAsciiAlphabetic c.toNat

/-- Embedding of `struct ChunkType { value: [u8; 4] }`.  The fixed-size
array `[u8; 4]` is embedded as a quadruple of naturals. -/
structure ChunkType where
  value : Nat × Nat × Nat × Nat
deriving DecidableEq, Repr

/-- The four bytes of the identifier as a list, in index order; used to
embed `self.value.iter()`. -/
def ChunkType.valueList (t : ChunkType) : List Nat :=
  [t.value.1, t.value.2.1, t.value.2.2.1, t.value.2.2.2]

/-- Embedding of the `std::io::ErrorKind` values used by the source (only
`InvalidInput` occurs). -/
inductive ErrorKind where
  | invalidInput : ErrorKind
deriving DecidableEq, Repr

/-- Embedding of `std::io::Error` as constructed by `IoError::new(kind, msg)`:
an error kind paired with its message. -/
structure IoError where
  kind : ErrorKind
  message : String
deriving DecidableEq, Repr

/-- Embedding of `impl TryFrom<[u8; 4]> for ChunkType`: wraps the four
bytes verbatim and always succeeds (`Ok(ChunkType { value })`). -/
def ChunkType.try_from (value : Nat × Nat × Nat × Nat) : Except IoError ChunkType :=
  .ok ⟨value⟩

/-- Possible outcomes of `ChunkType::from_str`: a successful parse, an
`Err` value, or a Rust panic (out-of-bounds slice index). -/
inductive FromStrOutcome where
  | ok : ChunkType → FromStrOutcome
  | err : IoError → FromStrOutcome
  | panicked : FromStrOutcome
deriving DecidableEq, Repr

/-- Embedding of `impl FromStr for ChunkType`.  The source first checks
`s.chars().all(|i| i.is_ascii_alphabetic())` and returns an
`InvalidInput` error if it fails; then it executes
`value.copy_from_slice(&s.as_bytes()[..4])`, which panics when the string
has fewer than 4 bytes and otherwise copies the first 4 bytes.  When the
letter check has passed every character is ASCII, so the string's UTF-8
bytes coincide with its characters' code points, which is how the byte
extraction is expressed here. -/
def ChunkType.from_str (s : String) : FromStrOutcome :=
  if !(s.data.all charIsAsciiAlphabetic) then
    .err ⟨.invalidInput, "only ascii alphabets"⟩
  else
    match s.data with
    | a :: b :: c :: d :: _ => .ok ⟨(a.toNat, b.toNat, c.toNat, d.toNat)⟩
    | _ => .panicked

/-- The Unicode replacement character U+FFFD, produced by lossy UTF-8
decoding for invalid byte sequences. -/
def replacementChar : Char := Char.ofNat 0xFFFD

/-- True when the byte is a UTF-8 continuation byte (`0x80..=0xBF`). -/
def isContinuationByte (b : Nat) : Bool :=
  0x80 ≤ b && b ≤ 0xBF

/-- One step of UTF-8 lossy decoding, modelling the decode loop of Rust
`String::from_utf8_lossy`: given the first byte and the remaining bytes,
returns the decoded character (the replacement character for an invalid
sequence) and how many bytes of the remainder belong to the sequence.
An invalid sequence consumes its maximal valid prefix and yields one
replacement character. -/
def utf8DecodeStep (b : Nat) (rest : List Nat) : Char × Nat :=
  if b < 0x80 then
    (Char.ofNat b, 0)
  else if 0xC2 ≤ b && b ≤ 0xDF then
    match rest with
    | b1 :: _ =>
      if isContinuationByte b1 then
        (Char.ofNat ((b - 0xC0) * 0x40 + (b1 - 0x80)), 1)
      else (replacementChar, 0)
    | [] => (replacementChar, 0)
  else if 0xE0 ≤ b && b ≤ 0xEF then
    match rest with
    | b1 :: rest2 =>
      let lo := if b = 0xE0 then 0xA0 else 0x80
      let hi := if b = 0xED then 0x9F else 0xBF
      if lo ≤ b1 && b1 ≤ hi then
        match rest2 with
        | b2 :: _ =>
          if isContinuationByte b2 then
            (Char.ofNat ((b - 0xE0) * 0x1000 + (b1 - 0x80) * 0x40 + (b2 - 0x80)), 2)
          else (replacementChar, 1)
        | [] => (replacementChar, 1)
      else (replacementChar, 0)
    | [] => (replacementChar, 0)
  else if 0xF0 ≤ b && b ≤ 0xF4 then
    match rest with
    | b1 :: rest2 =>
      let lo := if b = 0xF0 then 0x90 else 0x80
      let hi := if b = 0xF4 then 0x8F else 0xBF
      if lo ≤ b1 && b1 ≤ hi then
        match rest2 with
        | b2 :: rest3 =>
          if isContinuationByte b2 then
            match rest3 with
            | b3 :: _ =>
              if isContinuationByte b3 then
                (Char.ofNat ((b - 0xF0) * 0x40000 + (b1 - 0x80) * 0x1000 +
                  (b2 - 0x80) * 0x40 + (b3 - 0x80)), 3)
              else (replacementChar, 2)
            | [] => (replacementChar, 2)
          else (replacementChar, 1)
        | [] => (replacementChar, 1)
      else (replacementChar, 0)
    | [] => (replacementChar, 0)
  else (replacementChar, 0)

/-- UTF-8 lossy decoding of a byte list, modelling Rust
`String::from_utf8_lossy`: decode sequences left to right, substituting
the replacement character for invalid ones. -/
def utf8LossyDecode : List Nat → List Char
  | [] => []
  | b :: rest =>
    (utf8DecodeStep b rest).1 :: utf8LossyDecode (rest.drop (utf8DecodeStep b rest).2)
termination_by l => l.length
decreasing_by
  simp only [List.length_drop, List.length_cons]
  omega

/-- Embedding of `impl Display for ChunkType`:
`write!(f, "{}", String::from_utf8_lossy(&self.value))`. -/
def ChunkType.to_string (t : ChunkType) : String :=
  ⟨utf8LossyDecode t.valueList⟩

/-- Embedding of `ChunkType::bytes`: returns the underlying 4 bytes. -/
def ChunkType.bytes (t : ChunkType) : Nat × Nat × Nat × Nat :=
  t.value

/-- Embedding of `ChunkType::is_valid`:
`u8::is_ascii_uppercase(&self.value[2]) && self.value.iter().all(|i| i.is_ascii_alphabetic())`. -/
def ChunkType.is_valid (t : ChunkType) : Bool :=
  isAsciiUppercase t.value.2.2.1 && t.valueList.all isAsciiAlphabetic

/-- Embedding of `ChunkType::is_critical`:
`u8::is_ascii_uppercase(&self.value[0])`. -/
def ChunkType.is_critical (t : ChunkType) : Bool :=
  isAsciiUppercase t.value.1

/-- Embedding of `ChunkType::is_public`:
`u8::is_ascii_uppercase(&self.value[1])`. -/
def ChunkType.is_public (t : ChunkType) : Bool :=
  isAsciiUppercase t.value.2.1

/-- Embedding of `ChunkType::is_reserved_bit_valid`:
`u8::is_ascii_uppercase(&self.value[2])`. -/
def ChunkType.is_reserved_bit_valid (t : ChunkType) : Bool :=
  isAsciiUppercase t.value.2.2.1

/-- Embedding of `ChunkType::is_safe_to_copy`:
`!u8::is_ascii_uppercase(&self.value[3])`. -/
def ChunkType.is_safe_to_copy (t : ChunkType) : Bool :=
  !(isAsciiUppercase t.value.2.2.2)

/-- Modelled from the spec: the spec's phrase "byte[i] is an ASCII
uppercase letter", stated independently of the source's helper, for
comparison with the code's predicates. -/
def specAsciiUppercaseLetter (b : Nat) : Prop :=
  65 ≤ b ∧ b ≤ 90

/-- Modelled from the spec: the spec's phrase "byte is an ASCII letter
(A-Z or a-z)", stated independently of the source's helper. -/
def specAsciiLetter (b : Nat) : Prop :=
  (65 ≤ b ∧ b ≤ 90) ∨ (97 ≤ b ∧ b ≤ 122)

instance (b : Nat) : Decidable (specAsciiUppercaseLetter b) := by
  unfold specAsciiUppercaseLetter; infer_instance

instance (b : Nat) : Decidable (specAsciiLetter b) := by
  unfold specAsciiLetter; infer_instance

/-! ### Helper lemmas shared by the claim theorems -/

/-- A list of length 4 is a four-element literal. -/
lemma eq_cons_four_of_length_eq_four {α : Type} :
    ∀ {l : List α}, l.length = 4 → ∃ a b c d, l = [a, b, c, d]
  | [], h => by simp at h
  | [_], h => by simp at h
  | [_, _], h => by simp at h
  | [_, _, _], h => by simp at h
  | [a, b, c, d], _ => ⟨a, b, c, d, rfl⟩
  | _ :: _ :: _ :: _ :: _ :: _, h => by simp at h

/-- A list of length greater than 4 starts with four elements. -/
lemma four_cons_of_lt_length {α : Type} :
    ∀ {l : List α}, 4 < l.length → ∃ a b c d rest, l = a :: b :: c :: d :: rest
  | [], h => by simp at h
  | [_], h => by simp at h
  | [_, _], h => by simp at h
  | [_, _, _], h => by simp at h
  | a :: b :: c :: d :: rest, _ => ⟨a, b, c, d, rest, rfl⟩

/-- When some character of the string is not an ASCII letter, `from_str`
takes its error branch. -/
lemma from_str_err_of_exists_non_alpha (s : String)
    (h : ∃ c ∈ s.data, charIsAsciiAlphabetic c = false) :
    ChunkType.from_str s = .err ⟨.invalidInput, "only ascii alphabets"⟩ := by
  obtain ⟨c, hc, hcf⟩ := h
  have hall : s.data.all charIsAsciiAlphabetic = false := by
    rw [List.all_eq_false]
    exact ⟨c, hc, by simp [hcf]⟩
  simp [ChunkType.from_str, hall]

/-- When every character is an ASCII letter and the string has at least 4
characters, `from_str` builds the identifier from the first four code
points. -/
lemma from_str_ok_of_all_alpha (s : String) (a b c d : Char) (rest : List Char)
    (hs : s.data = a :: b :: c :: d :: rest)
    (halpha : ∀ x ∈ s.data, charIsAsciiAlphabetic x = true) :
    ChunkType.from_str s = .ok ⟨(a.toNat, b.toNat, c.toNat, d.toNat)⟩ := by
  have hall : s.data.all charIsAsciiAlphabetic = true :=
    List.all_eq_true.mpr halpha
  unfold ChunkType.from_str
  rw [hall, hs]
  rfl

/-- An ASCII-alphabetic character has code point below `0x80`. -/
lemma toNat_lt_of_alpha {c : Char} (h : charIsAsciiAlphabetic c = true) :
    c.toNat < 0x80 := by
  simp [charIsAsciiAlphabetic, isAsciiAlphabetic, isAsciiUppercase,
    isAsciiLowercase] at h
  omega

/-- Lossy UTF-8 decoding of a list of ASCII bytes is just code-point
conversion, byte by byte. -/
lemma utf8LossyDecode_ascii :
    ∀ l : List Nat, (∀ b ∈ l, b < 0x80) → utf8LossyDecode l = l.map Char.ofNat := by
  intro l
  induction l with
  | nil => intro _; rw [utf8LossyDecode]; rfl
  | cons b rest ih =>
    intro h
    have hb : b < 0x80 := h b (by simp)
    rw [utf8LossyDecode]
    simp [utf8DecodeStep, hb]
    exact ih fun x hx => h x (by simp [hx])

/-! ### Claim theorems -/

/-- C1: for every `ChunkType` value, the five predicates follow the case
rules of the spec's table: `is_critical` iff byte 0 is ASCII uppercase,
`is_public` iff byte 1 is, `is_reserved_bit_valid` iff byte 2 is,
`is_safe_to_copy` iff byte 3 is not, and `is_valid` iff byte 2 is ASCII
uppercase and all 4 bytes are ASCII letters. -/
theorem predicates_follow_spec_table (t : ChunkType) :
    (t.is_critical = true ↔ specAsciiUppercaseLetter t.value.1) ∧
    (t.is_public = true ↔ specAsciiUppercaseLetter t.value.2.1) ∧
    (t.is_reserved_bit_valid = true ↔ specAsciiUppercaseLetter t.value.2.2.1) ∧
    (t.is_safe_to_copy = true ↔ ¬ specAsciiUppercaseLetter t.value.2.2.2) ∧
    (t.is_valid = true ↔ (specAsciiUppercaseLetter t.value.2.2.1 ∧
      specAsciiLetter t.value.1 ∧ specAsciiLetter t.value.2.1 ∧
      specAsciiLetter t.value.2.2.1 ∧ specAsciiLetter t.value.2.2.2)) := by
  obtain ⟨⟨b0, b1, b2, b3⟩⟩ := t
  simp [ChunkType.is_critical, ChunkType.is_public, ChunkType.is_reserved_bit_valid,
    ChunkType.is_safe_to_copy, ChunkType.is_valid, ChunkType.valueList,
    isAsciiUppercase, isAsciiLowercase, isAsciiAlphabetic,
    specAsciiUppercaseLetter, specAsciiLetter]
  omega

/-- C2 (counterexample to the length-must-be-4 rule): the 5-letter string
`"AAAAA"` is accepted by `from_str`, which silently truncates to the
first 4 bytes instead of failing. -/
theorem from_str_accepts_five_letter_string :
    ChunkType.from_str "AAAAA" = .ok ⟨(65, 65, 65, 65)⟩ := by decide

/-- C3 (counterexample to totality): on the 2-letter string `"AB"` the
source's `value.copy_from_slice(&s.as_bytes()[..4])` panics instead of
returning an error value. -/
theorem from_str_panics_on_short_string :
    ChunkType.from_str "AB" = .panicked := by decide

/-- C4: whenever some character of the input is not an ASCII letter,
`from_str` fails with the `InvalidInput` error kind, and `InvalidInput`
is the only error kind `from_str` ever returns. -/
theorem from_str_invalid_input_on_non_letter :
    (∀ s : String, (∃ c ∈ s.data, charIsAsciiAlphabetic c = false) →
      ChunkType.from_str s = .err ⟨.invalidInput, "only ascii alphabets"⟩) ∧
    (∀ (s : String) (e : IoError), ChunkType.from_str s = .err e →
      e.kind = .invalidInput) := by
  constructor
  · exact from_str_err_of_exists_non_alpha
  · intro s e h
    unfold ChunkType.from_str at h
    split at h
    · cases h; rfl
    · split at h <;> cases h

/-- Witness for C4 at the concrete input `"Ru1t"`. -/
theorem from_str_invalid_input_on_non_letter_witness :
    ChunkType.from_str "Ru1t" = .err ⟨.invalidInput, "only ascii alphabets"⟩ :=
  from_str_invalid_input_on_non_letter.1 "Ru1t" (by decide)

/-- C7: construction from raw bytes never fails and `bytes` returns the
input verbatim; stated for every quadruple of naturals, hence in
particular for every 4-byte array. -/
theorem try_from_always_succeeds_bytes_id (v : Nat × Nat × Nat × Nat) :
    ∃ t : ChunkType, ChunkType.try_from v = .ok t ∧ t.bytes = v :=
  ⟨⟨v⟩, rfl, rfl⟩

/-- C8: equality of `ChunkType` values is an equivalence relation and is
exactly byte-wise: two identifiers are equal iff the 4 corresponding
bytes agree. -/
theorem chunkType_eq_equivalence_bytewise :
    Equivalence (fun a b : ChunkType => a = b) ∧
    ∀ a b : ChunkType, a = b ↔
      (a.value.1 = b.value.1 ∧ a.value.2.1 = b.value.2.1 ∧
       a.value.2.2.1 = b.value.2.2.1 ∧ a.value.2.2.2 = b.value.2.2.2) := by
  refine ⟨⟨fun _ => rfl, fun h => h.symm, fun h h' => h.trans h'⟩, ?_⟩
  intro a b
  obtain ⟨⟨a0, a1, a2, a3⟩⟩ := a
  obtain ⟨⟨b0, b1, b2, b3⟩⟩ := b
  simp [ChunkType.mk.injEq, Prod.ext_iff]

/-- Witness for C8 at the concrete bytes of `"RuSt"`. -/
theorem chunkType_eq_equivalence_bytewise_witness :
    ChunkType.mk (82, 117, 83, 116) = ChunkType.mk (82, 117, 83, 116) :=
  (chunkType_eq_equivalence_bytewise.2
    (ChunkType.mk (82, 117, 83, 116)) (ChunkType.mk (82, 117, 83, 116))).mpr
    ⟨rfl, rfl, rfl, rfl⟩

/-- C10: `is_valid` equals the conjunction of `is_reserved_bit_valid` and
the all-bytes-ASCII-letters condition; in particular the two predicates
agree on every identifier whose 4 bytes are all ASCII letters. -/
theorem is_valid_eq_reserved_and_alphabetic (t : ChunkType) :
    t.is_valid = (t.is_reserved_bit_valid && t.valueList.all isAsciiAlphabetic) ∧
    (t.valueList.all isAsciiAlphabetic = true →
      t.is_valid = t.is_reserved_bit_valid) := by
  refine ⟨rfl, fun h => ?_⟩
  simp [ChunkType.is_valid, ChunkType.is_reserved_bit_valid, h]

/-- Witness for C10 at the concrete bytes of `"RuSt"`. -/
theorem is_valid_eq_reserved_and_alphabetic_witness :
    (ChunkType.mk (82, 117, 83, 116)).is_valid =
      (ChunkType.mk (82, 117, 83, 116)).is_reserved_bit_valid :=
  (is_valid_eq_reserved_and_alphabetic (ChunkType.mk (82, 117, 83, 116))).2
    (by decide)

/-- C5: for every string of exactly 4 ASCII letters, `from_str` succeeds
and the byte accessor of the result lists the string's 4 ASCII code
points, in order. -/
theorem from_str_four_letters_ok (s : String)
    (hlen : s.data.length = 4)
    (halpha : ∀ c ∈ s.data, charIsAsciiAlphabetic c = true) :
    ∃ t : ChunkType, ChunkType.from_str s = .ok t ∧
      t.valueList = s.data.map Char.toNat := by
  obtain ⟨a, b, c, d, hs⟩ := eq_cons_four_of_length_eq_four hlen
  exact ⟨⟨(a.toNat, b.toNat, c.toNat, d.toNat)⟩,
    from_str_ok_of_all_alpha s a b c d [] hs halpha,
    by simp [ChunkType.valueList, hs]⟩

/-- Witness for C5 at the concrete input `"RuSt"`. -/
theorem from_str_four_letters_ok_witness :
    ∃ t : ChunkType, ChunkType.from_str "RuSt" = .ok t ∧
      t.valueList = ("RuSt" : String).data.map Char.toNat :=
  from_str_four_letters_ok "RuSt" (by decide) (by decide)

/-- C6: round-trip — for every string of exactly 4 ASCII letters,
rendering the identifier parsed from it with the `Display`
implementation yields the string itself. -/
theorem from_str_to_string_roundtrip (s : String)
    (hlen : s.data.length = 4)
    (halpha : ∀ c ∈ s.data, charIsAsciiAlphabetic c = true) :
    ∃ t : ChunkType, ChunkType.from_str s = .ok t ∧ t.to_string = s := by
  obtain ⟨a, b, c, d, hs⟩ := eq_cons_four_of_length_eq_four hlen
  refine ⟨⟨(a.toNat, b.toNat, c.toNat, d.toNat)⟩,
    from_str_ok_of_all_alpha s a b c d [] hs halpha, ?_⟩
  have hlt : ∀ x ∈ [a.toNat, b.toNat, c.toNat, d.toNat], x < 0x80 := by
    intro x hx
    simp at hx
    rcases hx with h | h | h | h <;>
      exact h ▸ toNat_lt_of_alpha (halpha _ (by simp [hs]))
  show (⟨utf8LossyDecode [a.toNat, b.toNat, c.toNat, d.toNat]⟩ : String) = s
  rw [utf8LossyDecode_ascii _ hlt]
  simp [Char.ofNat_toNat]
  cases s
  simp at hs
  simp [hs]

/-- Witness for C6 at the concrete input `"RuSt"`. -/
theorem from_str_to_string_roundtrip_witness :
    ∃ t : ChunkType, ChunkType.from_str "RuSt" = .ok t ∧
      t.to_string = "RuSt" :=
  from_str_to_string_roundtrip "RuSt" (by decide) (by decide)

/-- C9: for every string longer than 4 characters, `from_str` succeeds
exactly when every character (anywhere in the string, including past
position 4) is an ASCII letter, in which case the identifier's bytes are
the first 4 code points; any non-letter anywhere makes it fail with
`InvalidInput`, because the letter check scans the whole string. -/
theorem from_str_long_strings (s : String) (hlen : 4 < s.data.length) :
    ((∀ c ∈ s.data, charIsAsciiAlphabetic c = true) →
      ∃ t : ChunkType, ChunkType.from_str s = .ok t ∧
        t.valueList = (s.data.take 4).map Char.toNat) ∧
    ((∃ c ∈ s.data, charIsAsciiAlphabetic c = false) →
      ChunkType.from_str s = .err ⟨.invalidInput, "only ascii alphabets"⟩) := by
  obtain ⟨a, b, c, d, rest, hs⟩ := four_cons_of_lt_length hlen
  refine ⟨fun halpha => ?_, from_str_err_of_exists_non_alpha s⟩
  exact ⟨⟨(a.toNat, b.toNat, c.toNat, d.toNat)⟩,
    from_str_ok_of_all_alpha s a b c d rest hs halpha,
    by simp [ChunkType.valueList, hs]⟩

/-- Witness for C9 at the concrete inputs `"AAAAA"` (all letters, longer
than 4) and `"AAAAb1"` (non-letter past position 4). -/
theorem from_str_long_strings_witness :
    (∃ t : ChunkType, ChunkType.from_str "AAAAA" = .ok t ∧
      t.valueList = (("AAAAA" : String).data.take 4).map Char.toNat) ∧
    ChunkType.from_str "AAAAb1" = .err ⟨.invalidInput, "only ascii alphabets"⟩ :=
  ⟨(from_str_long_strings "AAAAA" (by decide)).1 (by decide),
   (from_str_long_strings "AAAAb1" (by decide)).2 (by decide)⟩

end PngMe
